import Mathlib

/-!
Shallow embedding of scripts/transform_plugin_data/run.py: the catalog fetch
validation, the per-repository enrichment (URL parsing, retrying stats fetch,
cache fallback), and the merge engine, together with proofs of the spec claims.

JSON values are modelled by the inductive JValue; Python dicts are ordered
association lists with unique keys (JObj). Fallible Python operations such as
int() conversion are modelled with Except; network calls are oracles passed
as explicit parameters.
-/

set_option autoImplicit false

/-- A JSON value as produced by json.loads: null, string, integer number,
boolean, array or object. Objects are ordered association lists, matching
Python dict insertion order. -/
inductive JValue where
  | null
  | s (v : String)
  | i (v : Int)
  | b (v : Bool)
  | arr (xs : List JValue)
  | obj (fs : List (String × JValue))

/-- A JSON object body (Python dict with string keys, insertion ordered). -/
abbrev JObj := List (String × JValue)

/-- Python dict lookup d.get(k): the value at the first matching key. -/
def jget : JObj → String → Option JValue
  | [], _ => none
  | (k', v) :: rest, k => if k' = k then some v else jget rest k

/-- Python dict lookup with default, d.get(k, dflt). -/
def jgetD (o : JObj) (k : String) (d : JValue) : JValue :=
  (jget o k).getD d

/-- Python dict assignment d[k] = v: replace in place if the key exists,
append otherwise (insertion order preserved). -/
def jset : JObj → String → JValue → JObj
  | [], k, v => [(k, v)]
  | (k', v') :: rest, k, v =>
      if k' = k then (k, v) :: rest else (k', v') :: jset rest k v

/-- Python dict removal d.pop(k, None). -/
def jdel (o : JObj) (k : String) : JObj :=
  o.filter (fun p => p.1 ≠ k)

/-- Python truthiness of a JSON value: None, "", 0, False, [] and a normal
empty dict are falsy, everything else truthy. -/
def truthy : JValue → Bool
  | .null => false
  | .s v => v ≠ ""
  | .i v => v ≠ 0
  | .b v => v
  | .arr xs => !xs.isEmpty
  | .obj fs => !fs.isEmpty

/-- Truthiness of an optional value (Python None for a missing value). -/
def truthyO : Option JValue → Bool
  | none => false
  | some v => truthy v

/-- Python infix or: the left value if truthy, else the right value. -/
def pyOr (a b : JValue) : JValue :=
  if truthy a then a else b

/-- Python x or dflt where x may be None (a missing dict value). -/
def pyOrO (a : Option JValue) (d : JValue) : JValue :=
  match a with
  | some v => pyOr v d
  | none => d

/-- Python equality test of a JSON value against a string literal. -/
def isStr (v : JValue) (t : String) : Bool :=
  match v with
  | .s u => u = t
  | _ => false

/-- Digits of a decimal numeral to a natural number. -/
def digitsToNat (ds : List Char) : Nat :=
  ds.foldl (fun acc c => acc * 10 + (c.toNat - 48)) 0

/-- Decimal digit run to an integer, none when empty or non-digit. -/
def parseIntDigits (ds : List Char) : Option Int :=
  if !ds.isEmpty && ds.all (fun c => c.isDigit) then some ((digitsToNat ds : Int))
  else none

/-- Python int(str): optional surrounding whitespace, an optional sign,
then decimal digits; anything else raises ValueError (modelled as none). -/
def parseIntStr (str : String) : Option Int :=
  let t := ((str.toList.dropWhile (fun c => c.isWhitespace)).reverse.dropWhile
    (fun c => c.isWhitespace)).reverse
  match t with
  | '-' :: ds => (parseIntDigits ds).map (fun n => -n)
  | '+' :: ds => parseIntDigits ds
  | ds => parseIntDigits ds

/-- Python int() conversion of a JSON value: ints pass through, booleans
become 0 or 1, numeric strings are parsed, everything else raises
(ValueError or TypeError), modelled as Except.error. -/
def pyIntE : JValue → Except Unit Int
  | .i n => .ok n
  | .b true => .ok 1
  | .b false => .ok 0
  | .s v =>
      match parseIntStr v with
      | some n => .ok n
      | none => .error ()
  | _ => .error ()

mutual

/-- Python repr() of a JSON value (strings quoted); used only through str()
on container values, which the pipeline never produces. -/
def pyRepr : JValue → String
  | .null => "None"
  | .b true => "True"
  | .b false => "False"
  | .i n => toString n
  | .s v => "\x27" ++ v ++ "\x27"
  | .arr xs => "[" ++ pyReprList xs ++ "]"
  | .obj fs => "\x7b" ++ pyReprObj fs ++ "\x7d"

/-- Comma-separated repr of list elements. -/
def pyReprList : List JValue → String
  | [] => ""
  | [x] => pyRepr x
  | x :: rest => pyRepr x ++ ", " ++ pyReprList rest

/-- Comma-separated repr of dict items. -/
def pyReprObj : List (String × JValue) → String
  | [] => ""
  | [(k, v)] => "\x27" ++ k ++ "\x27: " ++ pyRepr v
  | (k, v) :: rest => "\x27" ++ k ++ "\x27: " ++ pyRepr v ++ ", " ++ pyReprObj rest

end

/-- Python str() of a JSON value: identity on strings, repr-like rendering
otherwise (None, True, False, numerals). -/
def pyStr : JValue → String
  | .s v => v
  | v => pyRepr v

/-- Python dict lookup keyed by an arbitrary JSON value, as in
repo_info.get(repo_url): unhashable keys (lists, dicts) raise TypeError;
hashable non-string keys find nothing in a string-keyed dict. -/
def lookupByVal (o : JObj) : JValue → Except Unit (Option JValue)
  | .s k => .ok (jget o k)
  | .arr _ => .error ()
  | .obj _ => .error ()
  | _ => .ok none

/-- Cache record produced by build_cache_by_repo for one repository URL:
stars forced to int via int(... or 0), the other fields via (... or ""),
which leaves them as arbitrary JSON values when the cache is malformed. -/
structure CacheRec where
  stars : Int
  updated_at : JValue
  version : JValue
  logo : JValue

/-- Assignment into a string-keyed association map, replacing in place. -/
def aset {α : Type} : List (String × α) → String → α → List (String × α)
  | [], k, v => [(k, v)]
  | (k', v') :: rest, k, v =>
      if k' = k then (k, v) :: rest else (k', v') :: aset rest k v

/-- Lookup in a string-keyed association map. -/
def aget {α : Type} : List (String × α) → String → Option α
  | [], _ => none
  | (k', v) :: rest, k => if k' = k then some v else aget rest k

/-- normalize_cache from run.py: unwrap a nested data object if present,
otherwise use the loaded object as is; non-dict input becomes empty. -/
def normalize_cache (c : JValue) : JObj :=
  match c with
  | .obj fs =>
      match jget fs "data" with
      | some (.obj ds) => ds
      | _ => fs
  | _ => []

/-- build_cache_by_repo from run.py: index cache entries by repository URL,
skipping values that are not dicts and entries whose repo is missing, not a
string, or empty. The int() conversion of the stars field can raise
(Except.error), which in the script propagates and aborts the run. -/
def build_cache_by_repo : JObj → Except Unit (List (String × CacheRec))
  | [] => .ok []
  | (_, v) :: rest =>
      match v with
      | .obj fs =>
          match jget fs "repo" with
          | some (.s r) =>
              if r = "" then build_cache_by_repo rest
              else
                match pyIntE (pyOrO (jget fs "stars") (.i 0)) with
                | .error _ => .error ()
                | .ok st =>
                    match build_cache_by_repo rest with
                    | .error _ => .error ()
                    | .ok tail =>
                        .ok (aset tail r
                          ⟨st, pyOrO (jget fs "updated_at") (.s ""),
                            pyOrO (jget fs "version") (.s ""),
                            pyOrO (jget fs "logo") (.s "")⟩)
          | _ => build_cache_by_repo rest
      | _ => build_cache_by_repo rest

/-- Test isinstance(payload, dict) and "stargazers_count" in payload. -/
def hasStarsField : Option JValue → Bool
  | some (.obj fs) => (jget fs "stargazers_count").isSome
  | _ => false

/-- The expression payload if isinstance(payload, dict) else an empty dict. -/
def dictOrEmpty : Option JValue → Option JValue
  | some (.obj fs) => some (.obj fs)
  | _ => some (.obj [])

/-- Classification of one fetch_repo attempt, from the if/elif chain in
run.py lines 175-189: some result means return immediately, none means the
attempt is retried. -/
def classify (payload : Option JValue) (status : Int) : Option (Option JValue × String) :=
  if payload.isNone && (status == -1) then none
  else if (status == 200) && hasStarsField payload then some (payload, "success")
  else if (status == 301) || (status == 302) then some (dictOrEmpty payload, "redirected")
  else if status == 404 then some (dictOrEmpty payload, "deleted")
  else if status == 403 then some (dictOrEmpty payload, "api_limit")
  else none

/-- The retry loop of fetch_repo: responses gives the http_get_json result
(payload, status) of each attempt, attempt is the current attempt number,
remaining the attempts left. Sleeping between attempts has no effect on the
result and is not modelled. -/
def fetchRepoAux (responses : Nat → Option JValue × Int) (attempt remaining : Nat) :
    Option JValue × String :=
  match remaining with
  | 0 => (none, "network_error")
  | r + 1 =>
      let (p, st) := responses attempt
      match classify p st with
      | some res => res
      | none => fetchRepoAux responses (attempt + 1) r

/-- fetch_repo from run.py: up to maxRetries attempts starting at attempt 1;
a decisive attempt returns immediately, exhaustion yields network_error. -/
def fetch_repo (responses : Nat → Option JValue × Int) (maxRetries : Nat) :
    Option JValue × String :=
  fetchRepoAux responses 1 maxRetries

/-- Consume an expected literal character prefix: the remaining characters
when the prefix matches, none otherwise. -/
def dropPrefixChars : List Char → List Char → Option (List Char)
  | [], cs => some cs
  | _ :: _, [] => none
  | p :: ps, c :: cs => if c = p then dropPrefixChars ps cs else none

/-- Split a character sequence at every slash. -/
def splitSlash : List Char → List (List Char)
  | [] => [[]]
  | c :: rest =>
      if c = '/' then [] :: splitSlash rest
      else
        match splitSlash rest with
        | g :: gs => (c :: g) :: gs
        | [] => [[c]]

/-- Strip one trailing .git from the repo segment when a nonempty capture
remains, reproducing the lazy repo group of REPO_URL_RE followed by the
optional .git group. -/
def stripGit (t : List Char) : List Char :=
  if 4 < t.length ∧ t.drop (t.length - 4) = ['.', 'g', 'i', 't'] then
    t.take (t.length - 4)
  else t

/-- The owner and repo capture groups of one owner/repo segment pair, with
owner and repo required nonempty and slash free. -/
def mkMatch (o t : List Char) : Option (String × String) :=
  if o ≠ [] ∧ t ≠ [] ∧ stripGit t ≠ [] then
    some (String.mk o, String.mk (stripGit t))
  else none

/-- REPO_URL_RE matching: a well-formed repository URL is
https://github.com/owner/repo with owner and repo nonempty and free of
slashes, an optional .git suffix and an optional trailing slash. Returns
the (owner, repo) capture groups. -/
def matchRepoUrl (url : String) : Option (String × String) :=
  match dropPrefixChars "https://github.com/".toList url.toList with
  | none => none
  | some rest =>
      match splitSlash rest with
      | [o, t] => mkMatch o t
      | [o, t, []] => mkMatch o t
      | _ => none

/-- The enrichment result dict built by process_repo: stars from int(),
updated_at as returned by the stats payload or str() of the cached value,
version and logo strings, and the status code. -/
structure RepoInfoR where
  stars : Int
  updated_at : JValue
  version : String
  logo : String
  status : String

/-- Network oracle for one process_repo call: the http_get_json outcome of
each fetch_repo attempt, and the results of the extract_version and
extract_logo sub-fetches (themselves network bound, returned as strings). -/
structure NetOracle where
  responses : Nat → Option JValue × Int
  versionResult : String
  logoResult : String

/-- process_repo from run.py: parse the URL (invalid_repo_url on failure,
before any network call), run the retrying stats fetch, on success read
stars, updated_at and default_branch from the payload and fetch version and
logo, otherwise fall back to the non-trivial cached record when a cache
snapshot exists. int() of a malformed stargazers_count raises. -/
def process_repo (repo_url : String) (cache_by_repo : List (String × CacheRec))
    (has_existing_cache : Bool) (net : NetOracle) (maxRetries : Nat) :
    Except Unit RepoInfoR :=
  match matchRepoUrl repo_url with
  | none => .ok ⟨0, .s "", "", "", "invalid_repo_url"⟩
  | some _ =>
      match fetch_repo net.responses maxRetries with
      | (some (.obj fs), "success") =>
          match pyIntE (pyOrO (jget fs "stargazers_count") (.i 0)) with
          | .error _ => .error ()
          | .ok stars =>
              .ok ⟨stars, pyOrO (jget fs "updated_at") (.s ""),
                net.versionResult, net.logoResult, "success"⟩
      | (_, st) =>
          if has_existing_cache then
            match aget cache_by_repo repo_url with
            | some cached =>
                if cached.stars ≠ 0 ∨ !isStr cached.updated_at "" then
                  .ok ⟨cached.stars, .s (pyStr cached.updated_at),
                    pyStr cached.version, pyStr cached.logo, "cached"⟩
                else .ok ⟨0, .s "", "", "", st⟩
            | none => .ok ⟨0, .s "", "", "", st⟩
          else .ok ⟨0, .s "", "", "", st⟩

/-- Python not body.strip(): the body consists solely of whitespace. -/
def pyStripEmpty (s : String) : Bool :=
  s.toList.all (fun c => c.isWhitespace)

/-- Emptiness test data in (empty dict, empty list, None) on the parsed
catalog payload. -/
def isEmptyJson : JValue → Bool
  | .obj [] => true
  | .arr [] => true
  | .null => true
  | _ => false

/-- fetch_original_plugin_data from run.py: resp is the HTTP outcome (none
models a raised request exception, otherwise status code and body) and
parseJson models json.loads (none on JSONDecodeError). Returns ok and the
catalog; every validation failure yields false and an empty catalog. -/
def fetch_original_plugin_data (parseJson : String → Option JValue)
    (resp : Option (Int × String)) : Bool × JObj :=
  match resp with
  | none => (false, [])
  | some (status, body) =>
      if status ≠ 200 then (false, [])
      else if pyStripEmpty body then (false, [])
      else if body.utf8ByteSize < 50 then (false, [])
      else
        match parseJson body with
        | none => (false, [])
        | some data =>
            if isEmptyJson data then (false, [])
            else
              match data with
              | .obj fs => (true, fs)
              | _ => (false, [])

/-- The guard in main (run.py lines 572-582): enrichment, merge and the
rewrite of the persisted artifact happen only when the fetch reported ok;
otherwise the existing artifact is left untouched. -/
def mainArtifact (fetchResult : Bool × JObj) (oldArtifact : Option JValue)
    (newArtifact : JValue) : Option JValue :=
  if fetchResult.1 then some newArtifact else oldArtifact

/-- Backoff delay before a retry attempt, run.py line 169:
min(BASE_DELAY * 2 ^ (attempt - 2), MAX_DELAY), in exact rational
arithmetic. -/
def backoffDelay (baseDelay maxDelay : ℚ) (attempt : Nat) : ℚ :=
  min (baseDelay * 2 ^ (attempt - 2)) maxDelay

/-- Total sleep before a retry attempt, run.py lines 169-170: the backoff
delay plus random.uniform(0, delay * 0.5), with u in [0, 1] the sampled
unit random value. -/
def sleepDelay (baseDelay maxDelay u : ℚ) (attempt : Nat) : ℚ :=
  backoffDelay baseDelay maxDelay attempt +
    u * (backoffDelay baseDelay maxDelay attempt * (1 / 2))

/-- The cache entry for a plugin key in transform_plugin_data line 345:
cache.get(key, an empty dict) if it is a dict, else an empty dict. -/
def centry (cache : JObj) (key : String) : JObj :=
  match jget cache key with
  | some (.obj fs) => fs
  | _ => []

/-- The expression repo_entry.get(field) if isinstance(repo_entry, dict)
else None, used for the version, stars, updated_at and logo reads. -/
def riGet (repo_entry : Option JValue) (field : String) : Option JValue :=
  match repo_entry with
  | some (.obj fs) => jget fs field
  | _ => none

/-- transform_plugin_data line 346: repo_entry.get("status", "") when
repo_entry is a dict, the empty string otherwise. -/
def repoStatusOf (repo_entry : Option JValue) : JValue :=
  match repo_entry with
  | some (.obj fs) => jgetD fs "status" (.s "")
  | _ => .s ""

/-- The drop test of transform_plugin_data lines 348-350: repo_entry is
truthy and (its status equals deleted, or its status differs from success
and the cache entry is empty). -/
def shouldDrop (repo_entry : Option JValue) (repo_status : JValue)
    (cache_entry : JObj) : Bool :=
  truthyO repo_entry &&
    (isStr repo_status "deleted" ||
      (!isStr repo_status "success" && cache_entry.isEmpty))

/-- The final_version chain of line 366: repo version or cache version or
the literal 1.0.0, each candidate already passed through (... or ""). -/
def finalVersion (repo_entry : Option JValue) (cache_entry : JObj) : JValue :=
  pyOr (pyOrO (riGet repo_entry "version") (.s ""))
    (pyOr (pyOr (jgetD cache_entry "version" (.s "")) (.s "")) (.s "1.0.0"))

/-- The final_stars computation of line 367: int(repo stars) when the
status equals success and the repo stars value is not None, else int(cache
stars); int() can raise. -/
def starsExpr (repo_entry : Option JValue) (repo_status : JValue)
    (cache_entry : JObj) : Except Unit Int :=
  match riGet repo_entry "stars" with
  | some rs =>
      if isStr repo_status "success" then pyIntE rs
      else pyIntE (pyOr (jgetD cache_entry "stars" (.i 0)) (.i 0))
  | none => pyIntE (pyOr (jgetD cache_entry "stars" (.i 0)) (.i 0))

/-- The final_updated chain of line 368. -/
def finalUpdated (repo_entry : Option JValue) (cache_entry : JObj) : JValue :=
  pyOr (pyOrO (riGet repo_entry "updated_at") (.s ""))
    (pyOr (pyOr (jgetD cache_entry "updated_at" (.s "")) (.s "")) (.s ""))

/-- The final_logo chain of line 369. -/
def finalLogo (repo_entry : Option JValue) (cache_entry : JObj) : JValue :=
  pyOr (pyOrO (riGet repo_entry "logo") (.s ""))
    (pyOr (pyOr (jgetD cache_entry "logo" (.s "")) (.s "")) (.s ""))

/-- The in-place rewrite of the copied plugin dict, lines 371-387: desc,
author, repo and tags (defaulting to an empty list) reassigned from the
original, stars and version overwritten, social_link reassigned only when
present, updated_at and logo set when truthy and popped otherwise. -/
def rewritePlugin (pl : JObj) (final_stars : Int)
    (final_version final_updated final_logo : JValue) : JObj :=
  let np := pl
  let np := jset np "desc" (jgetD pl "desc" .null)
  let np := jset np "author" (jgetD pl "author" .null)
  let np := jset np "repo" (jgetD pl "repo" .null)
  let np := jset np "tags" (jgetD pl "tags" (.arr []))
  let np := jset np "stars" (.i final_stars)
  let np := jset np "version" final_version
  let np :=
    match jget pl "social_link" with
    | some v => jset np "social_link" v
    | none => np
  let np :=
    if truthy final_updated then jset np "updated_at" final_updated
    else jdel np "updated_at"
  if truthy final_logo then jset np "logo" final_logo
  else jdel np "logo"

/-- Field computation and rewrite of one retained entry,
transform_plugin_data lines 357-389: per-field precedence between the
RepoInfo entry and the cache entry, then the in-place rewrite of the copied
plugin dict. The int() conversions of the stars candidates can raise. -/
def buildEntry (pl : JObj) (repo_entry : Option JValue) (repo_status : JValue)
    (cache_entry : JObj) : Except Unit JObj :=
  match starsExpr repo_entry repo_status cache_entry with
  | .error _ => .error ()
  | .ok final_stars =>
      .ok (rewritePlugin pl final_stars
        (finalVersion repo_entry cache_entry)
        (finalUpdated repo_entry cache_entry)
        (finalLogo repo_entry cache_entry))

/-- Treatment of one catalog entry by the merge loop, transform_plugin_data
lines 340-389: non-dict plugins are skipped, the RepoInfo entry is looked
up by the plugin's repo value (raising on unhashable values), the entry is
dropped or rebuilt. ok none means the key is absent from the output. -/
def mergeEntry (repo_info cache : JObj) (key : String) (plugin : JValue) :
    Except Unit (Option JObj) :=
  match plugin with
  | .obj pl =>
      match lookupByVal repo_info (jgetD pl "repo" (.s "")) with
      | .error _ => .error ()
      | .ok repo_entry =>
          let cache_entry := centry cache key
          let repo_status := repoStatusOf repo_entry
          if shouldDrop repo_entry repo_status cache_entry then .ok none
          else
            match buildEntry pl repo_entry repo_status cache_entry with
            | .error _ => .error ()
            | .ok np => .ok (some np)
  | _ => .ok none

/-- The merge loop over the original catalog in iteration order: surviving
entries are emitted under their original key, an uncaught int() error
anywhere aborts the whole merge. -/
def transformEntries (repo_info cache : JObj) : List (String × JValue) → Except Unit JObj
  | [] => .ok []
  | (k, p) :: rest =>
      match mergeEntry repo_info cache k p with
      | .error _ => .error ()
      | .ok none => transformEntries repo_info cache rest
      | .ok (some np) =>
          match transformEntries repo_info cache rest with
          | .error _ => .error ()
          | .ok out => .ok ((k, .obj np) :: out)

/-- transform_plugin_data from run.py: normalize the raw cache, then run
the merge loop over the original catalog. -/
def transform_plugin_data (original_plugins repo_info : JObj)
    (existing_cache_raw : JValue) : Except Unit JObj :=
  transformEntries repo_info (normalize_cache existing_cache_raw) original_plugins

theorem jget_jset_self (o : JObj) (k : String) (v : JValue) :
    jget (jset o k v) k = some v := by
  induction o with
  | nil => simp [jget, jset]
  | cons hd tl ih =>
      obtain ⟨k', v'⟩ := hd
      by_cases h : k' = k <;> simp [jget, jset, h, ih]

theorem jget_jset_ne (o : JObj) (k k2 : String) (v : JValue) (h : k ≠ k2) :
    jget (jset o k v) k2 = jget o k2 := by
  induction o with
  | nil => simp [jget, jset, h]
  | cons hd tl ih =>
      obtain ⟨k', v'⟩ := hd
      by_cases h1 : k' = k <;> by_cases h2 : k' = k2 <;> simp_all [jget, jset]

theorem jget_jdel_self (o : JObj) (k : String) : jget (jdel o k) k = none := by
  induction o with
  | nil => simp [jget, jdel]
  | cons hd tl ih =>
      obtain ⟨k', v'⟩ := hd
      by_cases h : k' = k <;> simp_all [jget, jdel]

theorem jget_jdel_ne (o : JObj) (k k2 : String) (h : k ≠ k2) :
    jget (jdel o k) k2 = jget o k2 := by
  induction o with
  | nil => simp [jget, jdel]
  | cons hd tl ih =>
      obtain ⟨k', v'⟩ := hd
      by_cases h1 : k' = k <;> by_cases h2 : k' = k2 <;> simp_all [jget, jdel]

theorem jget_mem (o : JObj) (k : String) (v : JValue) (h : jget o k = some v) :
    (k, v) ∈ o := by
  induction o with
  | nil => simp [jget] at h
  | cons hd tl ih =>
      obtain ⟨k', v'⟩ := hd
      by_cases h1 : k' = k
      · simp [jget, h1] at h
        simp [h1, h]
      · simp [jget, h1] at h
        exact List.mem_cons_of_mem _ (ih h)

theorem classify_status (p : Option JValue) (st : Int) (q : Option JValue) (s : String)
    (h : classify p st = some (q, s)) :
    s = "success" ∨ s = "redirected" ∨ s = "deleted" ∨ s = "api_limit" := by
  unfold classify at h
  split_ifs at h <;> simp_all

theorem fetchRepoAux_status (resp : Nat → Option JValue × Int) :
    ∀ r a : Nat, (fetchRepoAux resp a r).2 ∈
      (["success", "redirected", "deleted", "api_limit", "network_error"] : List String) := by
  intro r
  induction r with
  | zero => intro a; simp [fetchRepoAux]
  | succ n ih =>
      intro a
      rcases hra : resp a with ⟨p, st⟩
      cases hc : classify p st with
      | none => simpa [fetchRepoAux, hra, hc] using ih (a + 1)
      | some res =>
          obtain ⟨q, s⟩ := res
          rcases classify_status _ _ _ _ hc with h | h | h | h <;>
            simp [fetchRepoAux, hra, hc, h]

theorem transform_no_error (ri c : JObj) :
    ∀ (es : List (String × JValue)) (out : JObj),
      transformEntries ri c es = .ok out →
      ∀ (k : String) (p : JValue), (k, p) ∈ es → mergeEntry ri c k p ≠ .error () := by
  intro es
  induction es with
  | nil => intro out _ k p hmem; simp at hmem
  | cons hd tl ih =>
      obtain ⟨k1, p1⟩ := hd
      intro out hok k p hmem
      unfold transformEntries at hok
      cases hme : mergeEntry ri c k1 p1 with
      | error e => rw [hme] at hok; cases hok
      | ok o =>
          rw [hme] at hok
          rcases List.mem_cons.mp hmem with heq | htl
          · obtain ⟨hk, hp⟩ := Prod.mk.injEq .. ▸ heq
            cases heq
            simp [hme]
          · cases o with
            | none => exact ih out hok k p htl
            | some np =>
                cases hrest : transformEntries ri c tl with
                | error e => rw [hrest] at hok; cases hok
                | ok out' => exact ih out' hrest k p htl

theorem transform_keys_none (ri c : JObj) :
    ∀ (es : List (String × JValue)) (out : JObj) (k : String),
      transformEntries ri c es = .ok out → k ∉ es.map Prod.fst → jget out k = none := by
  intro es
  induction es with
  | nil =>
      intro out k hok _
      unfold transformEntries at hok
      cases hok
      simp [jget]
  | cons hd tl ih =>
      obtain ⟨k1, p1⟩ := hd
      intro out k hok hnot
      simp only [List.map_cons, List.mem_cons] at hnot
      push_neg at hnot
      obtain ⟨hk1, htl⟩ := hnot
      unfold transformEntries at hok
      cases hme : mergeEntry ri c k1 p1 with
      | error e => rw [hme] at hok; cases hok
      | ok o =>
          rw [hme] at hok
          cases o with
          | none => exact ih out k hok htl
          | some np =>
              cases hrest : transformEntries ri c tl with
              | error e => rw [hrest] at hok; cases hok
              | ok out' =>
                  rw [hrest] at hok
                  cases hok
                  simp [jget, Ne.symm hk1]
                  exact ih out' k hrest htl

theorem transform_lookup (ri c : JObj) :
    ∀ (es : List (String × JValue)) (out : JObj) (key : String) (p : JValue),
      transformEntries ri c es = .ok out → (es.map Prod.fst).Nodup → (key, p) ∈ es →
      jget out key =
        (match mergeEntry ri c key p with
         | .ok (some np) => some (.obj np)
         | _ => none) := by
  intro es
  induction es with
  | nil => intro out key p _ _ hmem; simp at hmem
  | cons hd tl ih =>
      obtain ⟨k1, p1⟩ := hd
      intro out key p hok hnodup hmem
      simp only [List.map_cons, List.nodup_cons] at hnodup
      obtain ⟨hk1, hnd⟩ := hnodup
      unfold transformEntries at hok
      rcases List.mem_cons.mp hmem with heq | htl
      · have hk : key = k1 := by cases heq; rfl
        have hp : p = p1 := by cases heq; rfl
        subst hk; subst hp
        cases hme : mergeEntry ri c key p with
        | error e => rw [hme] at hok; cases hok
        | ok o =>
            rw [hme] at hok
            cases o with
            | none =>
                have : key ∉ tl.map Prod.fst := hk1
                simp [transform_keys_none ri c tl out key hok this]
            | some np =>
                cases hrest : transformEntries ri c tl with
                | error e => rw [hrest] at hok; cases hok
                | ok out' =>
                    rw [hrest] at hok
                    cases hok
                    simp [jget]
      · have hkeyne : k1 ≠ key := by
          intro hcontra
          exact hk1 (hcontra ▸ List.mem_map_of_mem Prod.fst htl)
        cases hme : mergeEntry ri c k1 p1 with
        | error e => rw [hme] at hok; cases hok
        | ok o =>
            rw [hme] at hok
            cases o with
            | none => exact ih out key p hok hnd htl
            | some np =>
                cases hrest : transformEntries ri c tl with
                | error e => rw [hrest] at hok; cases hok
                | ok out' =>
                    rw [hrest] at hok
                    cases hok
                    rw [show jget ((k1, JValue.obj np) :: out') key = jget out' key by
                      simp [jget, hkeyne]]
                    exact ih out' key p hrest hnd htl

theorem mergeEntry_kept (repo_info cache : JObj) (key : String) (pl np : JObj)
    (h : mergeEntry repo_info cache key (.obj pl) = .ok (some np)) :
    ∃ re, lookupByVal repo_info (jgetD pl "repo" (.s "")) = .ok re ∧
      shouldDrop re (repoStatusOf re) (centry cache key) = false ∧
      buildEntry pl re (repoStatusOf re) (centry cache key) = .ok np := by
  simp only [mergeEntry] at h
  cases hl : lookupByVal repo_info (jgetD pl "repo" (.s "")) with
  | error e => simp [hl] at h
  | ok re =>
      simp only [hl] at h
      cases hd : shouldDrop re (repoStatusOf re) (centry cache key) with
      | true => simp [hd] at h
      | false =>
          simp only [hd, Bool.false_eq_true, if_false] at h
          cases hb : buildEntry pl re (repoStatusOf re) (centry cache key) with
          | error e => simp [hb] at h
          | ok np' =>
              simp only [hb, Except.ok.injEq, Option.some.injEq] at h
              subst h
              exact ⟨re, rfl, hd, hb⟩

theorem jget_jset_of_ne (o : JObj) (k k2 : String) (v : JValue) (h : k2 ≠ k) :
    jget (jset o k v) k2 = jget o k2 :=
  jget_jset_ne o k k2 v (Ne.symm h)

theorem jget_jdel_of_ne (o : JObj) (k k2 : String) (h : k2 ≠ k) :
    jget (jdel o k) k2 = jget o k2 :=
  jget_jdel_ne o k k2 (Ne.symm h)

theorem rw_version (pl : JObj) (fs : Int) (fv fu fl : JValue) :
    jget (rewritePlugin pl fs fv fu fl) "version" = some fv := by
  simp only [rewritePlugin]
  cases hsoc : jget pl "social_link" <;> cases hfu : truthy fu <;> cases hfl : truthy fl <;>
    simp [jget_jset_self, jget_jset_of_ne, jget_jdel_of_ne]

theorem rw_stars (pl : JObj) (fs : Int) (fv fu fl : JValue) :
    jget (rewritePlugin pl fs fv fu fl) "stars" = some (.i fs) := by
  simp only [rewritePlugin]
  cases hsoc : jget pl "social_link" <;> cases hfu : truthy fu <;> cases hfl : truthy fl <;>
    simp [jget_jset_self, jget_jset_of_ne, jget_jdel_of_ne]

theorem rw_updated (pl : JObj) (fs : Int) (fv fu fl : JValue) :
    jget (rewritePlugin pl fs fv fu fl) "updated_at" = (if truthy fu then some fu else none) := by
  simp only [rewritePlugin]
  cases hsoc : jget pl "social_link" <;> cases hfu : truthy fu <;> cases hfl : truthy fl <;>
    simp [hfu, jget_jset_self, jget_jset_of_ne, jget_jdel_of_ne, jget_jdel_self]

theorem rw_logo (pl : JObj) (fs : Int) (fv fu fl : JValue) :
    jget (rewritePlugin pl fs fv fu fl) "logo" = (if truthy fl then some fl else none) := by
  simp only [rewritePlugin]
  cases hsoc : jget pl "social_link" <;> cases hfu : truthy fu <;> cases hfl : truthy fl <;>
    simp [hfl, jget_jset_self, jget_jset_of_ne, jget_jdel_of_ne, jget_jdel_self]

theorem rw_desc (pl : JObj) (fs : Int) (fv fu fl : JValue) :
    jget (rewritePlugin pl fs fv fu fl) "desc" = some (jgetD pl "desc" .null) := by
  simp only [rewritePlugin]
  cases hsoc : jget pl "social_link" <;> cases hfu : truthy fu <;> cases hfl : truthy fl <;>
    simp [jget_jset_self, jget_jset_of_ne, jget_jdel_of_ne]

theorem rw_author (pl : JObj) (fs : Int) (fv fu fl : JValue) :
    jget (rewritePlugin pl fs fv fu fl) "author" = some (jgetD pl "author" .null) := by
  simp only [rewritePlugin]
  cases hsoc : jget pl "social_link" <;> cases hfu : truthy fu <;> cases hfl : truthy fl <;>
    simp [jget_jset_self, jget_jset_of_ne, jget_jdel_of_ne]

theorem rw_repofield (pl : JObj) (fs : Int) (fv fu fl : JValue) :
    jget (rewritePlugin pl fs fv fu fl) "repo" = some (jgetD pl "repo" .null) := by
  simp only [rewritePlugin]
  cases hsoc : jget pl "social_link" <;> cases hfu : truthy fu <;> cases hfl : truthy fl <;>
    simp [jget_jset_self, jget_jset_of_ne, jget_jdel_of_ne]

theorem rw_tags (pl : JObj) (fs : Int) (fv fu fl : JValue) :
    jget (rewritePlugin pl fs fv fu fl) "tags" = some (jgetD pl "tags" (.arr [])) := by
  simp only [rewritePlugin]
  cases hsoc : jget pl "social_link" <;> cases hfu : truthy fu <;> cases hfl : truthy fl <;>
    simp [jget_jset_self, jget_jset_of_ne, jget_jdel_of_ne]

theorem rw_social (pl : JObj) (fs : Int) (fv fu fl : JValue) :
    jget (rewritePlugin pl fs fv fu fl) "social_link" = jget pl "social_link" := by
  simp only [rewritePlugin]
  cases hsoc : jget pl "social_link" <;> cases hfu : truthy fu <;> cases hfl : truthy fl <;>
    simp [hsoc, jget_jset_self, jget_jset_of_ne, jget_jdel_of_ne]

theorem rw_frame (pl : JObj) (fs : Int) (fv fu fl : JValue) (f : String)
    (h : f ∉ (["desc", "author", "repo", "tags", "social_link", "stars", "version",
      "updated_at", "logo"] : List String)) :
    jget (rewritePlugin pl fs fv fu fl) f = jget pl f := by
  simp only [List.mem_cons, List.mem_singleton, not_or] at h
  obtain ⟨h1, h2, h3, h4, h5, h6, h7, h8, h9, -⟩ := h
  simp only [rewritePlugin]
  cases hsoc : jget pl "social_link" <;> cases hfu : truthy fu <;> cases hfl : truthy fl <;>
    simp [jget_jset_of_ne, jget_jdel_of_ne, h1, h2, h3, h4, h5, h6, h7, h8, h9]

/-- C5: for every repository URL that does not match the
https://host/owner/repo[.git][/] pattern, process_repo returns a RepoInfo
with status invalid_repo_url, zero stars and empty updated_at, version and
logo — for every network oracle, every cache-by-repo index, every
has-cache flag and every retry budget, so no network call influences the
result and the cache fallback is never applied to such a URL. -/
theorem enrich_invalid_url (repo_url : String) (cache_by_repo : List (String × CacheRec))
    (has_cache : Bool) (net : NetOracle) (m : Nat)
    (h : matchRepoUrl repo_url = none) :
    process_repo repo_url cache_by_repo has_cache net m =
      .ok ⟨0, JValue.s "", "", "", "invalid_repo_url"⟩ := by
  unfold process_repo
  rw [h]

/-- C5 witness: a malformed URL (http scheme) with a non-trivial cached
record for that very URL still yields invalid_repo_url with zeroed
fields. -/
theorem enrich_invalid_url_witness :
    process_repo "http://github.com/a/b"
      [("http://github.com/a/b", ⟨99, JValue.s "2024", JValue.s "9.9", JValue.s "LL"⟩)]
      true ⟨fun _ => (none, 404), "V", "L"⟩ 5 =
      .ok ⟨0, JValue.s "", "", "", "invalid_repo_url"⟩ :=
  enrich_invalid_url _ _ _ _ _ (by rfl)

/-- C7: for attempts a at least 2, the backoff delay is
min(baseDelay * 2 ^ (a - 2), maxDelay); ignoring jitter it is monotonically
non-decreasing in the attempt number and never exceeds maxDelay, and the
slept delay with jitter u in [0, 1] lies between the backoff delay and 1.5
times the backoff delay. -/
theorem backoff_monotone_bounded (b M u : ℚ) (a : Nat)
    (hb : 0 ≤ b) (hM : 0 ≤ M) (ha : 2 ≤ a) (hu0 : 0 ≤ u) (hu1 : u ≤ 1) :
    backoffDelay b M a ≤ backoffDelay b M (a + 1)
    ∧ backoffDelay b M a ≤ M
    ∧ backoffDelay b M a ≤ sleepDelay b M u a
    ∧ sleepDelay b M u a ≤ backoffDelay b M a + backoffDelay b M a * (1 / 2) := by
  have hd0 : 0 ≤ backoffDelay b M a :=
    le_min (mul_nonneg hb (pow_nonneg (by norm_num) _)) hM
  refine ⟨?_, min_le_right _ _, ?_, ?_⟩
  · unfold backoffDelay
    apply min_le_min _ le_rfl
    apply mul_le_mul_of_nonneg_left _ hb
    apply pow_le_pow_right₀ (by norm_num) (by omega)
  · unfold sleepDelay
    nlinarith [mul_nonneg hu0 (mul_nonneg hd0 (by norm_num : (0:ℚ) ≤ 1/2))]
  · unfold sleepDelay
    nlinarith [mul_le_mul_of_nonneg_right hu1 (mul_nonneg hd0 (by norm_num : (0:ℚ) ≤ 1/2))]

/-- C7 witness: the default configuration baseDelay 2, maxDelay 30 at
attempt 2 with jitter unit one half. -/
theorem backoff_monotone_bounded_witness :
    backoffDelay 2 30 2 ≤ backoffDelay 2 30 (2 + 1)
    ∧ backoffDelay 2 30 2 ≤ 30
    ∧ backoffDelay 2 30 2 ≤ sleepDelay 2 30 (1 / 2) 2
    ∧ sleepDelay 2 30 (1 / 2) 2 ≤ backoffDelay 2 30 2 + backoffDelay 2 30 2 * (1 / 2) :=
  backoff_monotone_bounded 2 30 (1 / 2) 2 (by norm_num) (by norm_num) (by norm_num)
    (by norm_num) (by norm_num)

theorem fetchRepoAux_step (resp : Nat → Option JValue × Int) (a r : Nat) :
    fetchRepoAux resp a (r + 1) =
      (match classify (resp a).1 (resp a).2 with
       | some res => res
       | none => fetchRepoAux resp (a + 1) r) := by
  rcases hra : resp a with ⟨p, st⟩
  simp [fetchRepoAux, hra]

theorem classify_none_of_not_decisive (p : Option JValue) (st : Int)
    (h : st ∉ ([200, 301, 302, 404, 403] : List Int)) : classify p st = none := by
  simp only [List.mem_cons, List.mem_singleton, not_or] at h
  obtain ⟨h1, h2, h3, h4, h5, -⟩ := h
  simp [classify, h1, h2, h3, h4, h5]

theorem fetchRepoAux_none (resp : Nat → Option JValue × Int) :
    ∀ r a : Nat, (∀ i, a ≤ i → i < a + r → classify (resp i).1 (resp i).2 = none) →
      fetchRepoAux resp a r = (none, "network_error") := by
  intro r
  induction r with
  | zero => intro a _; rfl
  | succ n ih =>
      intro a h
      have h0 : classify (resp a).1 (resp a).2 = none := h a le_rfl (by omega)
      rw [fetchRepoAux_step, h0]
      exact ih (a + 1) (fun i hi1 hi2 => h i (by omega) (by omega))

/-- C4: the first attempt of fetch_repo maps outcomes to statuses exactly
as specified: HTTP 200 whose payload proves a repository object yields
success with that payload; 301 or 302 yields redirected immediately; 404
yields deleted; 403 yields api_limit; 429, 502, 503 and 504 continue with
the remaining attempts; any status outside the decisive set (including a
transport failure, status -1) likewise continues; and when every attempt
within the budget is non-decisive the result is network_error. -/
theorem fetch_repo_status_classification (responses : Nat → Option JValue × Int)
    (m : Nat) (hm : 0 < m) :
    (∀ fs, responses 1 = (some (.obj fs), 200) → (jget fs "stargazers_count").isSome →
        fetch_repo responses m = (some (.obj fs), "success"))
    ∧ (∀ p st, responses 1 = (p, st) → st = 301 ∨ st = 302 →
        fetch_repo responses m = (dictOrEmpty p, "redirected"))
    ∧ (∀ p, responses 1 = (p, 404) → fetch_repo responses m = (dictOrEmpty p, "deleted"))
    ∧ (∀ p, responses 1 = (p, 403) → fetch_repo responses m = (dictOrEmpty p, "api_limit"))
    ∧ (∀ p st, responses 1 = (p, st) → st ∈ ([429, 502, 503, 504] : List Int) →
        fetch_repo responses m = fetchRepoAux responses 2 (m - 1))
    ∧ (∀ p st, responses 1 = (p, st) → st ∉ ([200, 301, 302, 404, 403] : List Int) →
        fetch_repo responses m = fetchRepoAux responses 2 (m - 1))
    ∧ ((∀ i, 1 ≤ i → i ≤ m → classify (responses i).1 (responses i).2 = none) →
        fetch_repo responses m = (none, "network_error")) := by
  obtain ⟨k, rfl⟩ : ∃ k, m = k + 1 := ⟨m - 1, by omega⟩
  unfold fetch_repo
  refine ⟨?_, ?_, ?_, ?_, ?_, ?_, ?_⟩
  · intro fs h1 h2
    rw [fetchRepoAux_step, h1]
    simp [classify, hasStarsField, h2]
  · intro p st h1 h2
    rw [fetchRepoAux_step, h1]
    rcases h2 with h2 | h2 <;> subst h2 <;> simp [classify]
  · intro p h1
    rw [fetchRepoAux_step, h1]
    simp [classify]
  · intro p h1
    rw [fetchRepoAux_step, h1]
    simp [classify]
  · intro p st h1 h2
    rw [fetchRepoAux_step, h1]
    fin_cases h2 <;> simp [classify]
  · intro p st h1 h2
    rw [fetchRepoAux_step, h1]
    have := classify_none_of_not_decisive p st h2
    simp only [this]
    rfl
  · intro h
    exact fetchRepoAux_none responses (k + 1) 1 (fun i hi1 hi2 => h i hi1 (by omega))

/-- C4 witness: with every attempt answering HTTP 404, a five-attempt
fetch returns deleted with the empty-dict payload immediately. -/
theorem fetch_repo_status_classification_witness :
    fetch_repo (fun _ => (none, 404)) 5 = (some (.obj []), "deleted") :=
  (fetch_repo_status_classification (fun _ => (none, 404)) 5 (by norm_num)).2.2.1 none rfl

/-- C10: every RepoInfo produced by process_repo has a status drawn from
success, cached, redirected, deleted, api_limit, network_error or
invalid_repo_url, and in particular the initializer status unknown is
never the status of a returned RepoInfo, for every URL, cache, flag,
network oracle and retry budget. -/
theorem repo_info_status_vocabulary (repo_url : String)
    (cache_by_repo : List (String × CacheRec)) (has_cache : Bool)
    (net : NetOracle) (m : Nat) (info : RepoInfoR)
    (h : process_repo repo_url cache_by_repo has_cache net m = .ok info) :
    info.status ∈ (["success", "cached", "redirected", "deleted", "api_limit",
      "network_error", "invalid_repo_url"] : List String)
    ∧ info.status ≠ "unknown" := by
  have hmem : info.status ∈ (["success", "cached", "redirected", "deleted", "api_limit",
      "network_error", "invalid_repo_url"] : List String) := by
    unfold process_repo at h
    split at h
    · cases h
      simp
    · split at h
      · split at h
        · cases h
        · cases h
          simp
      · rename_i p st hne hfetch
        have hst : st = "success" ∨ st = "redirected" ∨ st = "deleted" ∨
            st = "api_limit" ∨ st = "network_error" := by
          have hall := fetchRepoAux_status net.responses m 1
          rw [show fetchRepoAux net.responses 1 m = fetch_repo net.responses m from rfl,
            hfetch] at hall
          simpa using hall
        split at h
        · split at h
          · split at h
            · cases h
              simp
            · cases h
              simp only [RepoInfoR.status]
              rcases hst with hs | hs | hs | hs | hs <;> simp [hs]
          · cases h
            simp only [RepoInfoR.status]
            rcases hst with hs | hs | hs | hs | hs <;> simp [hs]
        · cases h
          simp only [RepoInfoR.status]
          rcases hst with hs | hs | hs | hs | hs <;> simp [hs]
  refine ⟨hmem, ?_⟩
  intro he
  rw [he] at hmem
  simp at hmem

/-- C10 witness: a malformed URL with no cache yields a RepoInfo whose
status sits in the vocabulary and is not unknown. -/
theorem repo_info_status_vocabulary_witness :
    (RepoInfoR.mk 0 (JValue.s "") "" "" "invalid_repo_url").status ∈
      (["success", "cached", "redirected", "deleted", "api_limit",
        "network_error", "invalid_repo_url"] : List String)
    ∧ (RepoInfoR.mk 0 (JValue.s "") "" "" "invalid_repo_url").status ≠ "unknown" :=
  repo_info_status_vocabulary "nonsense" [] false ⟨fun _ => (none, 404), "", ""⟩ 5 _ rfl

/-- C3: when the URL parses, the stats fetch ends in any terminal status
other than success, a cache snapshot exists and the by-repository fallback
record is non-trivial (non-zero stars or non-empty updated_at), the
RepoInfo returned by process_repo has status cached and its stars,
updated_at, version and logo are exactly the values of that fallback
record. -/
theorem enrich_cache_fallback (repo_url : String)
    (cache_by_repo : List (String × CacheRec)) (net : NetOracle) (m : Nat)
    (ow rp : String) (hmatch : matchRepoUrl repo_url = some (ow, rp))
    (p : Option JValue) (st : String) (hfetch : fetch_repo net.responses m = (p, st))
    (hst : st ≠ "success")
    (rec : CacheRec) (hlook : aget cache_by_repo repo_url = some rec)
    (u v l : String)
    (hu : rec.updated_at = JValue.s u) (hv : rec.version = JValue.s v)
    (hl : rec.logo = JValue.s l)
    (hnontriv : rec.stars ≠ 0 ∨ u ≠ "") :
    process_repo repo_url cache_by_repo true net m =
      .ok ⟨rec.stars, JValue.s u, v, l, "cached"⟩ := by
  unfold process_repo
  simp only [hmatch, hfetch]
  split
  · rename_i fs hfs
    exact absurd (congrArg Prod.snd hfs) (by simpa using hst)
  · simp only [if_true, hlook]
    rw [hu, hv, hl]
    have hcond : rec.stars ≠ 0 ∨ (!isStr (JValue.s u) "") = true := by
      rcases hnontriv with hs | hue
      · exact Or.inl hs
      · right
        simp [isStr, hue]
    rw [if_pos hcond]
    rfl

/-- C3 witness: a single-attempt fetch answering 404 (deleted) with a
non-trivial cached record for the URL yields exactly that record with
status cached. -/
theorem enrich_cache_fallback_witness :
    process_repo "https://github.com/a/b"
      [("https://github.com/a/b", ⟨10, JValue.s "2023", JValue.s "1.2", JValue.s "LO"⟩)]
      true ⟨fun _ => (none, 404), "V", "L"⟩ 1 =
      .ok ⟨10, JValue.s "2023", "1.2", "LO", "cached"⟩ :=
  enrich_cache_fallback "https://github.com/a/b"
    [("https://github.com/a/b", ⟨10, JValue.s "2023", JValue.s "1.2", JValue.s "LO"⟩)]
    ⟨fun _ => (none, 404), "V", "L"⟩ 1 "a" "b" rfl
    (some (.obj [])) "deleted" rfl (by decide)
    ⟨10, JValue.s "2023", JValue.s "1.2", JValue.s "LO"⟩ rfl "2023" "1.2" "LO" rfl rfl rfl
    (Or.inl (by decide))

/-- C6: the remote catalog fetch returns ok true with the parsed catalog
exactly when the HTTP outcome is status 200 with a body that is non-empty,
at least 50 bytes long, parses as JSON and yields a non-empty object (not
an array, not null); in every other case it returns ok false with an empty
catalog, and the main guard then leaves the persisted artifact untouched.
The hypothesis on parseJson states that whitespace-only bodies never parse,
a property of json.loads. -/
theorem catalog_fetch_validation (parseJson : String → Option JValue)
    (hws : ∀ b : String, pyStripEmpty b = true → parseJson b = none)
    (resp : Option (Int × String)) :
    (∀ fs, fetch_original_plugin_data parseJson resp = (true, fs) ↔
        ∃ body, resp = some (200, body) ∧ body ≠ "" ∧ 50 ≤ body.utf8ByteSize ∧
          parseJson body = some (.obj fs) ∧ fs ≠ [])
    ∧ (∀ ok cat, fetch_original_plugin_data parseJson resp = (ok, cat) → ok = false →
        cat = [] ∧ ∀ old newArt, mainArtifact (ok, cat) old newArt = old) := by
  constructor
  · intro fs
    constructor
    · intro h
      rcases resp with _ | ⟨status, body⟩
      · simp [fetch_original_plugin_data] at h
      · simp only [fetch_original_plugin_data] at h
        split_ifs at h with h200 hempty hsize
        · cases h
        · cases h
        · cases h
        · rcases hp : parseJson body with _ | data
          · simp only [hp] at h
            simp at h
          · simp only [hp] at h
            split_ifs at h with hemptyj
            · cases h
            · rcases data with _ | sv | iv | bv | xs | gs
              · cases h
              · cases h
              · cases h
              · cases h
              · cases h
              · cases h
                refine ⟨body, ?_, ?_, ?_, hp, ?_⟩
                · have : status = 200 := by omega
                  rw [this]
                · intro hb
                  subst hb
                  exact hempty rfl
                · omega
                · intro hnil
                  subst hnil
                  exact hemptyj rfl
    · rintro ⟨body, rfl, hne, hsize, hparse, hfs⟩
      have hnotws : pyStripEmpty body = false := by
        cases hpw : pyStripEmpty body
        · rfl
        · exact absurd (hws body hpw) (by simp [hparse])
      have hnotempty : isEmptyJson (.obj fs) = false := by
        cases fs with
        | nil => exact absurd rfl hfs
        | cons a l => rfl
      simp only [fetch_original_plugin_data]
      rw [if_neg (by simp), if_neg (by simp [hnotws]), if_neg (by omega)]
      simp only [hparse]
      rw [if_neg (by simp [hnotempty])]
  · intro ok cat heq hok
    subst hok
    refine ⟨?_, fun old newArt => by simp [mainArtifact]⟩
    rcases resp with _ | ⟨status, body⟩
    · cases heq
      rfl
    · simp only [fetch_original_plugin_data] at heq
      split_ifs at heq with h200 hempty hsize
      · cases heq; rfl
      · cases heq; rfl
      · cases heq; rfl
      · rcases hp : parseJson body with _ | data
        · simp only [hp] at heq; cases heq; rfl
        · simp only [hp] at heq
          split_ifs at heq with hemptyj
          · cases heq; rfl
          · rcases data with _ | sv | iv | bv | xs | gs
            · cases heq; rfl
            · cases heq; rfl
            · cases heq; rfl
            · cases heq; rfl
            · cases heq; rfl
            · cases heq

/-- C6 witness: a failed request (network exception, resp none) yields ok
false, the empty catalog, and an unchanged artifact. -/
theorem catalog_fetch_validation_witness :
    ([] : JObj) = [] ∧ ∀ old newArt,
      mainArtifact (false, ([] : JObj)) old newArt = old :=
  (catalog_fetch_validation (fun _ => none) (fun _ _ => rfl) none).2 false [] rfl rfl

/-- C8 counterexample: a cache entry whose stars value is the non-numeric
string abc makes the int() conversion raise, so cache indexing
(build_cache_by_repo) and the merge loop (transformEntries) both abort
with an uncaught error instead of skipping the malformed entry — the run
exits with an error, contradicting the claim that malformed entries never
cause the run to abort. -/
theorem malformed_stars_aborts_run :
    build_cache_by_repo [("q", .obj [("repo", .s "https://github.com/x/y"),
        ("stars", .s "oops")])] = .error ()
    ∧ transformEntries [("u", .obj [("status", .s "network_error")])]
        [("p1", .obj [("stars", .s "abc")])]
        [("p1", .obj [("repo", .s "u")])] = .error () :=
  ⟨rfl, rfl⟩

/-- C8 amended: catalog and cache entries whose values are not objects are
skipped per-entry during cache indexing and during the merge and cause no
abort; however a cache entry whose stars value is not convertible to an
integer (for example a non-numeric string) raises an uncaught conversion
error that aborts the run. -/
theorem malformed_entries_skipped (k : String) (v : JValue) (rest : JObj)
    (repo_info cache : JObj) (hv : ∀ fs, v ≠ .obj fs) :
    build_cache_by_repo ((k, v) :: rest) = build_cache_by_repo rest
    ∧ mergeEntry repo_info cache k v = .ok none
    ∧ build_cache_by_repo [("p", .obj [("repo", .s "https://github.com/a/b"),
        ("stars", .s "xyz")])] = .error () := by
  refine ⟨?_, ?_, rfl⟩
  · cases v <;> first | rfl | exact absurd rfl (hv _)
  · cases v <;> first | rfl | exact absurd rfl (hv _)

/-- C8 amended witness: a null cache value is skipped by indexing and the
merge, while the non-numeric stars entry aborts. -/
theorem malformed_entries_skipped_witness :
    build_cache_by_repo [("k", .null)] = build_cache_by_repo []
    ∧ mergeEntry [] [] "k" .null = .ok none
    ∧ build_cache_by_repo [("p", .obj [("repo", .s "https://github.com/a/b"),
        ("stars", .s "xyz")])] = .error () :=
  malformed_entries_skipped "k" .null [] [] [] (fun _ h => JValue.noConfusion h)

theorem buildEntry_ok (pl : JObj) (re : Option JValue) (rst : JValue) (ce : JObj)
    (np : JObj) (h : buildEntry pl re rst ce = .ok np) :
    ∃ fstars, starsExpr re rst ce = .ok fstars ∧
      np = rewritePlugin pl fstars (finalVersion re ce) (finalUpdated re ce)
        (finalLogo re ce) := by
  unfold buildEntry at h
  cases hs : starsExpr re rst ce with
  | error e =>
      rw [hs] at h
      exact absurd h (by simp)
  | ok n =>
      simp only [hs, Except.ok.injEq] at h
      exact ⟨n, rfl, h.symm⟩

/-- C9: every entry retained by the merge keeps its original desc, author,
repo, tags and social_link values unchanged (tags defaulting to an empty
list when absent, social_link present in the output exactly when present
in the input), and every field other than the rewritten mutable fields
stars, version, updated_at, logo (and the reassigned originals) is
carried over identically. -/
theorem merge_preserves_original_fields (repo_info cache : JObj) (key : String)
    (pl np : JObj)
    (hkept : mergeEntry repo_info cache key (.obj pl) = .ok (some np)) :
    (∀ v, jget pl "desc" = some v → jget np "desc" = some v)
    ∧ (∀ v, jget pl "author" = some v → jget np "author" = some v)
    ∧ (∀ v, jget pl "repo" = some v → jget np "repo" = some v)
    ∧ (∀ v, jget pl "tags" = some v → jget np "tags" = some v)
    ∧ (jget pl "tags" = none → jget np "tags" = some (.arr []))
    ∧ (∀ v, jget pl "social_link" = some v → jget np "social_link" = some v)
    ∧ (jget pl "social_link" = none → jget np "social_link" = none)
    ∧ (∀ f, f ∉ (["desc", "author", "repo", "tags", "social_link", "stars",
        "version", "updated_at", "logo"] : List String) → jget np f = jget pl f) := by
  obtain ⟨re, -, -, hb⟩ := mergeEntry_kept repo_info cache key pl np hkept
  obtain ⟨fstars, -, rfl⟩ := buildEntry_ok _ _ _ _ _ hb
  refine ⟨?_, ?_, ?_, ?_, ?_, ?_, ?_, ?_⟩
  · intro v hv
    rw [rw_desc]
    simp [jgetD, hv]
  · intro v hv
    rw [rw_author]
    simp [jgetD, hv]
  · intro v hv
    rw [rw_repofield]
    simp [jgetD, hv]
  · intro v hv
    rw [rw_tags]
    simp [jgetD, hv]
  · intro hv
    rw [rw_tags]
    simp [jgetD, hv]
  · intro v hv
    rw [rw_social, hv]
  · intro hv
    rw [rw_social, hv]
  · intro f hf
    exact rw_frame _ _ _ _ _ f hf

/-- C9 witness: a retained entry with desc D keeps it unchanged in the
output. -/
theorem merge_preserves_original_fields_witness :
    jget [("repo", JValue.s "u"), ("desc", JValue.s "D"), ("tags", JValue.arr []),
      ("zz", JValue.i 5), ("author", JValue.null), ("stars", JValue.i 0),
      ("version", JValue.s "1.0.0")] "desc" = some (JValue.s "D") :=
  (merge_preserves_original_fields [] [] "p1"
    [("repo", JValue.s "u"), ("desc", JValue.s "D"), ("tags", JValue.arr []),
      ("zz", JValue.i 5)] _ (by rfl)).1 (JValue.s "D") rfl

/-- C2: for a retained entry whose RepoInfo record and cache extraction are
well typed, each final field is computed independently by precedence:
version is the RepoInfo version if non-empty, else the cached version if
non-empty, else the literal 1.0.0; stars is the RepoInfo stars exactly
when the status equals success and otherwise the cached stars (whose
extraction defaults to 0); updated_at and logo take the RepoInfo value if
non-empty, else the cached value if non-empty, and the key is omitted from
the output entry otherwise. -/
theorem merge_field_precedence (repo_info cache : JObj) (key url : String)
    (pl np ri : JObj) (st rv ru rl : String) (rs : Int) (cv cu cl : String) (cs : Int)
    (hrepo : jgetD pl "repo" (.s "") = .s url)
    (hri : jget repo_info url = some (.obj ri))
    (hst : jget ri "status" = some (.s st))
    (hv : jget ri "version" = some (.s rv))
    (hs : jget ri "stars" = some (.i rs))
    (hu : jget ri "updated_at" = some (.s ru))
    (hl : jget ri "logo" = some (.s rl))
    (hcv : pyOr (jgetD (centry cache key) "version" (.s "")) (.s "") = .s cv)
    (hcs : pyOr (jgetD (centry cache key) "stars" (.i 0)) (.i 0) = .i cs)
    (hcu : pyOr (jgetD (centry cache key) "updated_at" (.s "")) (.s "") = .s cu)
    (hcl : pyOr (jgetD (centry cache key) "logo" (.s "")) (.s "") = .s cl)
    (hkept : mergeEntry repo_info cache key (.obj pl) = .ok (some np)) :
    jget np "version" =
      some (.s (if rv ≠ "" then rv else if cv ≠ "" then cv else "1.0.0"))
    ∧ jget np "stars" = some (.i (if st = "success" then rs else cs))
    ∧ jget np "updated_at" =
      (if ru ≠ "" then some (.s ru) else if cu ≠ "" then some (.s cu) else none)
    ∧ jget np "logo" =
      (if rl ≠ "" then some (.s rl) else if cl ≠ "" then some (.s cl) else none) := by
  obtain ⟨re, hlk, -, hb⟩ := mergeEntry_kept repo_info cache key pl np hkept
  rw [hrepo] at hlk
  have hre : re = some (.obj ri) := by
    simp only [lookupByVal, hri, Except.ok.injEq] at hlk
    exact hlk.symm
  subst hre
  have hrst : repoStatusOf (some (.obj ri)) = .s st := by
    simp [repoStatusOf, jgetD, hst]
  rw [hrst] at hb
  obtain ⟨fstars, hfs, rfl⟩ := buildEntry_ok _ _ _ _ _ hb
  refine ⟨?_, ?_, ?_, ?_⟩
  · rw [rw_version]
    simp only [finalVersion, riGet, hv, pyOrO, hcv]
    by_cases h1 : rv = "" <;> by_cases h2 : cv = "" <;>
      simp [pyOr, truthy, h1, h2]
  · rw [rw_stars]
    simp only [starsExpr, riGet, hs, hcs] at hfs
    by_cases hsucc : st = "success"
    · rw [if_pos (by simp [isStr, hsucc])] at hfs
      simp only [pyIntE, Except.ok.injEq] at hfs
      simp [hsucc, ← hfs]
    · rw [if_neg (by simp [isStr, hsucc])] at hfs
      simp only [pyIntE, Except.ok.injEq] at hfs
      simp [hsucc, ← hfs]
  · rw [rw_updated]
    simp only [finalUpdated, riGet, hu, pyOrO, hcu]
    by_cases h1 : ru = "" <;> by_cases h2 : cu = "" <;>
      simp [pyOr, truthy, h1, h2]
  · rw [rw_logo]
    simp only [finalLogo, riGet, hl, pyOrO, hcl]
    by_cases h1 : rl = "" <;> by_cases h2 : cl = "" <;>
      simp [pyOr, truthy, h1, h2]

/-- C2 witness: a network_error RepoInfo with empty version/updated_at next
to a cache entry with version 3.3, stars 7 and updated_at U yields those
cached values, stars from the cache, and no logo key. -/
theorem merge_field_precedence_witness :
    jget [("repo", JValue.s "u"), ("desc", JValue.null), ("author", JValue.null),
      ("tags", JValue.arr []), ("stars", JValue.i 7), ("version", JValue.s "3.3"),
      ("updated_at", JValue.s "U")] "version" = some (JValue.s "3.3")
    ∧ jget [("repo", JValue.s "u"), ("desc", JValue.null), ("author", JValue.null),
      ("tags", JValue.arr []), ("stars", JValue.i 7), ("version", JValue.s "3.3"),
      ("updated_at", JValue.s "U")] "stars" = some (JValue.i 7)
    ∧ jget [("repo", JValue.s "u"), ("desc", JValue.null), ("author", JValue.null),
      ("tags", JValue.arr []), ("stars", JValue.i 7), ("version", JValue.s "3.3"),
      ("updated_at", JValue.s "U")] "updated_at" = some (JValue.s "U")
    ∧ jget [("repo", JValue.s "u"), ("desc", JValue.null), ("author", JValue.null),
      ("tags", JValue.arr []), ("stars", JValue.i 7), ("version", JValue.s "3.3"),
      ("updated_at", JValue.s "U")] "logo" = none :=
  merge_field_precedence
    [("u", .obj [("status", .s "network_error"), ("version", .s ""), ("stars", .i 5),
      ("updated_at", .s ""), ("logo", .s "")])]
    [("p1", .obj [("version", .s "3.3"), ("stars", .i 7), ("updated_at", .s "U"),
      ("logo", .s "")])]
    "p1" "u" [("repo", JValue.s "u")] _
    [("status", .s "network_error"), ("version", .s ""), ("stars", .i 5),
      ("updated_at", .s ""), ("logo", .s "")]
    "network_error" "" "" "" 5 "3.3" "U" "" 7
    rfl rfl rfl rfl rfl rfl rfl rfl rfl rfl rfl (by rfl)

theorem mergeEntry_drop_iff (repo_info cache : JObj) (key url : String) (pl : JObj)
    (hrepo : jgetD pl "repo" (.s "") = .s url)
    (hRI : ∀ p ∈ repo_info, ∃ fs stv, p.2 = JValue.obj fs ∧ fs ≠ [] ∧
        jget fs "status" = some (JValue.s stv))
    (hCE : ∀ p ∈ cache, ∃ fs, p.2 = JValue.obj fs ∧ fs ≠ [])
    (hne : mergeEntry repo_info cache key (.obj pl) ≠ .error ()) :
    (mergeEntry repo_info cache key (.obj pl) = .ok none ↔
      ∃ fs stv, jget repo_info url = some (JValue.obj fs) ∧
        jget fs "status" = some (JValue.s stv) ∧
        (stv = "deleted" ∨ (stv ≠ "success" ∧ jget cache key = none)))
    ∧ ((¬ ∃ fs stv, jget repo_info url = some (JValue.obj fs) ∧
        jget fs "status" = some (JValue.s stv) ∧
        (stv = "deleted" ∨ (stv ≠ "success" ∧ jget cache key = none))) →
      ∃ np, mergeEntry repo_info cache key (.obj pl) = .ok (some np)) := by
  have hme : mergeEntry repo_info cache key (.obj pl) =
      (if shouldDrop (jget repo_info url) (repoStatusOf (jget repo_info url))
          (centry cache key) then .ok none
       else
         match buildEntry pl (jget repo_info url) (repoStatusOf (jget repo_info url))
             (centry cache key) with
         | .error _ => .error ()
         | .ok np => .ok (some np)) := by
    simp only [mergeEntry, hrepo, lookupByVal]
  cases hj : jget repo_info url with
  | none =>
      rw [hj] at hme
      have hsd : shouldDrop none (repoStatusOf none) (centry cache key) = false := by
        simp [shouldDrop, truthyO]
      simp only [hsd, Bool.false_eq_true, if_false] at hme
      cases hb : buildEntry pl none (repoStatusOf none) (centry cache key) with
      | error e =>
          rw [hb] at hme
          cases e
          exact absurd hme hne
      | ok np =>
          rw [hb] at hme
          refine ⟨?_, ?_⟩
          · rw [hme]
            simp
          · intro _
            exact ⟨np, hme⟩
  | some v =>
      obtain ⟨fs, stv, hveq, hfsne, hstat⟩ := hRI (url, v) (jget_mem _ _ _ hj)
      simp only at hveq
      subst hveq
      have hrst : repoStatusOf (some (JValue.obj fs)) = .s stv := by
        simp [repoStatusOf, jgetD, hstat]
      rw [hj, hrst] at hme
      have hfsne' : fs.isEmpty = false := by
        simpa [List.isEmpty_iff] using hfsne
      have hsd_iff : shouldDrop (some (JValue.obj fs)) (JValue.s stv) (centry cache key) = true ↔
          (stv = "deleted" ∨ (stv ≠ "success" ∧ jget cache key = none)) := by
        cases hc : jget cache key with
        | none => simp [shouldDrop, truthyO, truthy, isStr, hfsne', centry, hc]
        | some w =>
            obtain ⟨gs, hweq, hgs⟩ := hCE (key, w) (jget_mem _ _ _ hc)
            simp only at hweq
            subst hweq
            simp [shouldDrop, truthyO, truthy, isStr, hfsne', centry, hc,
              List.isEmpty_iff, hgs]
      by_cases hdc : stv = "deleted" ∨ (stv ≠ "success" ∧ jget cache key = none)
      · rw [if_pos (hsd_iff.mpr hdc)] at hme
        refine ⟨?_, ?_⟩
        · rw [hme]
          simp only [true_iff]
          exact ⟨fs, stv, rfl, hstat, hdc⟩
        · intro hcontra
          exact absurd ⟨fs, stv, rfl, hstat, hdc⟩ hcontra
      · have hsd : shouldDrop (some (JValue.obj fs)) (JValue.s stv) (centry cache key) = false := by
          cases hx : shouldDrop (some (JValue.obj fs)) (JValue.s stv) (centry cache key)
          · rfl
          · exact absurd (hsd_iff.mp hx) hdc
        simp only [hsd, Bool.false_eq_true, if_false] at hme
        cases hb : buildEntry pl (some (JValue.obj fs)) (JValue.s stv) (centry cache key) with
        | error e =>
            rw [hb] at hme
            cases e
            exact absurd hme hne
        | ok np =>
            rw [hb] at hme
            refine ⟨?_, ?_⟩
            · rw [hme]
              constructor
              · intro hcontra
                simp at hcontra
              · rintro ⟨fs', stv', hj', hstat', hcond'⟩
                have h1 := Option.some.inj hj'
                injection h1 with h2
                subst h2
                rw [hstat] at hstat'
                have h3 := Option.some.inj hstat'
                injection h3 with h4
                subst h4
                exact absurd hcond' hdc
            · intro _
              exact ⟨np, hme⟩

/-- C1: for every well-formed catalog entry processed by the merge (its
plugin value an object whose repo field resolves to the string url, the
catalog keys distinct, RepoInfo values well-shaped records and cache
values non-empty objects), the key is absent from the merge output exactly
when a RepoInfo record exists for url and its status is deleted, or its
status is not success and no cache entry exists for the plugin key; in
every other combination — including no RepoInfo record at all — the entry
is retained in the output under its original key. -/
theorem merge_drop_iff_spec (repo_info cache entries : JObj) (out : JObj)
    (key url : String) (pl : JObj)
    (hok : transformEntries repo_info cache entries = .ok out)
    (hnodup : (entries.map Prod.fst).Nodup)
    (hmem : (key, JValue.obj pl) ∈ entries)
    (hrepo : jgetD pl "repo" (JValue.s "") = JValue.s url)
    (hRI : ∀ p ∈ repo_info, ∃ fs stv, p.2 = JValue.obj fs ∧ fs ≠ [] ∧
        jget fs "status" = some (JValue.s stv))
    (hCE : ∀ p ∈ cache, ∃ fs, p.2 = JValue.obj fs ∧ fs ≠ []) :
    (jget out key = none ↔
      ∃ fs stv, jget repo_info url = some (JValue.obj fs) ∧
        jget fs "status" = some (JValue.s stv) ∧
        (stv = "deleted" ∨ (stv ≠ "success" ∧ jget cache key = none)))
    ∧ ((¬ ∃ fs stv, jget repo_info url = some (JValue.obj fs) ∧
        jget fs "status" = some (JValue.s stv) ∧
        (stv = "deleted" ∨ (stv ≠ "success" ∧ jget cache key = none))) →
      ∃ np, jget out key = some (JValue.obj np)) := by
  have hne := transform_no_error repo_info cache entries out hok key (.obj pl) hmem
  have hiff := mergeEntry_drop_iff repo_info cache key url pl hrepo hRI hCE hne
  have hlkup := transform_lookup repo_info cache entries out key (.obj pl) hok hnodup hmem
  constructor
  · constructor
    · intro hnone
      cases hm : mergeEntry repo_info cache key (.obj pl) with
      | error e =>
          cases e
          exact absurd hm hne
      | ok o =>
          cases o with
          | none => exact hiff.1.mp hm
          | some np =>
              rw [hlkup] at hnone
              simp only [hm] at hnone
              cases hnone
    · intro hdc
      have hm := hiff.1.mpr hdc
      rw [hlkup]
      simp only [hm]
  · intro hndc
    obtain ⟨np, hm⟩ := hiff.2 hndc
    refine ⟨np, ?_⟩
    rw [hlkup]
    simp only [hm]

/-- C1 witness: a deleted RepoInfo for the entry removes the key from the
output of the merge loop. -/
theorem merge_drop_iff_spec_witness : jget ([] : JObj) "p1" = none :=
  (merge_drop_iff_spec [("u", .obj [("status", .s "deleted")])] []
    [("p1", .obj [("repo", .s "u")])] [] "p1" "u" [("repo", JValue.s "u")]
    (by rfl) (by simp) (List.mem_singleton.mpr rfl) rfl
    (by
      intro p hp
      simp only [List.mem_singleton] at hp
      subst hp
      exact ⟨[("status", JValue.s "deleted")], "deleted", rfl, by simp, rfl⟩)
    (by intro p hp; simp at hp)).1.mpr
    ⟨[("status", JValue.s "deleted")], "deleted", rfl, rfl, Or.inl rfl⟩
